import Mathlib

/-!
Verification of the ldnlib watcher core (`src/index.ts`) against its
natural-language specification.

The TypeScript source is shallowly embedded: RDF quads become records of
strings, the streaming JSON-LD parse of `parseNotification` becomes a fold
over the ordered list of quads the parser produces, the per-item loop of
`InboxWatcher.start` becomes a recursion over the listed inbox items that
threads the identity store and records emitted events, and fallible network
fetches become `Except`-valued oracles supplied as parameters.
-/

/-- An RDF term; only its `value` string is consulted by the source. -/
structure Term where
  value : String
deriving DecidableEq, Repr

/-- An RDF statement (quad) as delivered by the streaming parser. -/
structure Quad where
  subject : Term
  predicate : Term
  object : Term
deriving DecidableEq, Repr

/-- `const RDF_NS = 'http://www.w3.org/1999/02/22-rdf-syntax-ns#'` -/
def RDF_NS : String := "http://www.w3.org/1999/02/22-rdf-syntax-ns#"

/-- `const AS_NS = 'https://www.w3.org/ns/activitystreams#'` -/
def AS_NS : String := "https://www.w3.org/ns/activitystreams#"

/-- The seven recognized activity types, prefixed with `AS_NS` (source `AS_types`). -/
def AS_types : List String :=
  (["Create", "Update", "Remove", "Announce", "Offer", "Accept", "Reject"]).map
    (fun k => AS_NS ++ k)

/-- The interface `INotification`: the parsed quads together with the derived
identifier.  In TypeScript `id` is declared `string` but may in fact be left
`undefined`; we embed it as `Option String`, `none` standing for `undefined`. -/
structure INotification where
  quads : List Quad
  id : Option String
deriving DecidableEq, Repr

/-- JavaScript truthiness of a `string | undefined` value: `undefined` and the
empty string are falsy, every other string is truthy.  The source guards the
id assignment with `!id`. -/
def strTruthy : Option String → Bool
  | none => false
  | some s => !(s == "")

/-- The condition of the source's `data` handler:
`quad.predicate.value == RDF_NS + 'type' && AS_types.includes(quad.object.value)`. -/
def isTypeMatch (q : Quad) : Bool :=
  (q.predicate.value == RDF_NS ++ "type") && AS_types.contains q.object.value

/-- One `data` event of `parseNotification`: push the quad, and when `id` is
still falsy and the quad is a recognized type statement, set `id` to the
quad's subject value. -/
def parseStep (quads : List Quad) (id : Option String) (q : Quad) :
    List Quad × Option String :=
  (quads ++ [q],
   if !(strTruthy id) && isTypeMatch q then some q.subject.value else id)

/-- Folding the `data` handler over the remaining stream. -/
def parseGo (quads : List Quad) (id : Option String) : List Quad → List Quad × Option String
  | [] => (quads, id)
  | q :: rest =>
      let st := parseStep quads id q
      parseGo st.1 st.2 rest

/-- `parseNotification`, on a stream that parses without error: the parser
emits `stream`'s quads in order, the handler accumulates them and derives the
identifier, and `end` resolves with both. -/
def parseNotification (stream : List Quad) : INotification :=
  let st := parseGo [] none stream
  { quads := st.1, id := st.2 }

/-- Modelled from the spec: the Identity Store (`krieven-data-file`'s
`Store<boolean>`, not under `src/`) is a persistent key-value map; `put`
records the latest value for a key and `get` returns the recorded value, a
missing key reading as falsy.  The key type is `Option String` because the
engine passes `notification.id`, which may be `undefined`; the JavaScript
store collapses all `undefined` keys to one key.  The store is embedded as
the list of puts, newest first. -/
def IdStore := List ((Option String) × Bool)

/-- `db.get(key)`: the most recently put value for `key`, falsy when absent. -/
def IdStore.get (db : IdStore) (k : Option String) : Bool :=
  match db.find? (fun e => e.1 == k) with
  | some e => e.2
  | none => false

/-- `db.put(key, v)`: record `v` for `key`. -/
def IdStore.put (db : IdStore) (k : Option String) (v : Bool) : IdStore :=
  (k, v) :: db

/-- A freshly opened (empty) store. -/
def IdStore.empty : IdStore := []

/-- One entry of the inbox listing returned by the external `list`
collaborator: the engine only reads its `url`. -/
structure InboxItem where
  url : String
deriving DecidableEq, Repr

/-- The observable actions of one tick of `InboxWatcher.start`, in program
order: emitting a `'notification'` event, and marking a dedup key seen. -/
inductive TickAction where
  | emit (n : INotification)
  | mark (k : Option String)
deriving DecidableEq, Repr

/-- The fetch-and-parse oracle for one tick: for a resource URL, either the
ordered quad stream its JSON-LD body parses to, or a fetch/parse error. -/
def FetchOracle := String → Except String (List Quad)

/-- `const idToCheck = strategy == 'notification_id' ? item.url : notification.id`. -/
def dedupKey (strategy : String) (itemUrl : String) (n : INotification) : Option String :=
  if strategy == "notification_id" then some itemUrl else n.id

/-- The loop body of `InboxWatcher.start` for one listed item: fetch the
resource and parse the notification (either may fail), compute `idToCheck`,
and — only when the store `db` is present and does not already have the key —
emit the `'notification'` event and then put the key.  Returns the recorded
actions and the store afterwards. -/
def processItem (strategy : String) (f : FetchOracle) (db : Option IdStore)
    (item : InboxItem) : Except String (List TickAction × Option IdStore) :=
  match f item.url with
  | .error e => .error e
  | .ok quads =>
      let notification := parseNotification quads
      let idToCheck := dedupKey strategy item.url notification
      match db with
      | some store =>
          if !(store.get idToCheck) then
            .ok ([TickAction.emit notification, TickAction.mark idToCheck],
                 some (store.put idToCheck true))
          else
            .ok ([], some store)
      | none => .ok ([], none)

/-- The `for (const item of items)` loop of one tick.  There is no per-item
`try`/`catch` in the source: an error thrown while processing an item
propagates out of the async tick body, so the remaining items are not
processed.  The result carries the actions performed before the failure, the
store state reached, and the error if one occurred. -/
def runItems (strategy : String) (f : FetchOracle) (db : Option IdStore) :
    List InboxItem → List TickAction × Option IdStore × Option String
  | [] => ([], db, none)
  | item :: rest =>
      match processItem strategy f db item with
      | .error e => ([], db, some e)
      | .ok (acts, db') =>
          let r := runItems strategy f db' rest
          (acts ++ r.1, r.2)

/-- The notifications carried by the `'notification'` events of a trace, in
emission order. -/
def emissionsOf (acts : List TickAction) : List INotification :=
  acts.filterMap (fun a => match a with | TickAction.emit n => some n | _ => none)

/-- The watcher's own state: the optional identity store opened at
construction, and the `stopPolling` flag. -/
structure InboxWatcher where
  db : Option IdStore
  stopPolling : Bool

/-- The options record of the private constructor. -/
structure WatcherOptions where
  cache : Bool := false
  cachePath : Option String := none

/-- The private constructor `new InboxWatcher(session, options = {})`: when
`options.cache` is truthy it opens the store at `options.cachePath` (default
`./.cache/cache.dsb`); otherwise `db` stays unset.  The freshly opened store
starts empty; the path does not influence the in-memory behaviour. -/
def InboxWatcher.construct (options : WatcherOptions := {}) : InboxWatcher :=
  { db := if options.cache then some IdStore.empty else none
    stopPolling := false }

/-- The options record accepted by the public factory `InboxWatcher.create`
(credential fields are consumed by the external login collaborator; only
`cachePath` could matter to the watcher itself). -/
structure CreateOptions where
  cachePath : Option String := none

/-- `InboxWatcher.create`: logs in (external) and returns
`new InboxWatcher(session)` — the constructor is invoked with no options
argument, so the default `{}` applies. -/
def InboxWatcher.create (_options : CreateOptions) : InboxWatcher :=
  InboxWatcher.construct

/-- `stop()`: sets `this.stopPolling = true`. -/
def InboxWatcher.stop (w : InboxWatcher) : InboxWatcher :=
  { w with stopPolling := true }

/-- The inputs visible to one scheduled tick: the inbox listing the external
`list` call returns for that tick, and whether `stop()` is called while the
tick is running. -/
structure TickInput where
  items : List InboxItem
  stopDuring : Bool

/-- Modelled from the spec: the external `poll` helper (the `poll` package,
not under `src/`) runs the tick callback, and observes the stop callback
`() => this.stopPolling` before starting each new tick; a tick already
started runs to completion.  `flag` is the current value of `stopPolling`;
each executed tick contributes its full action trace, and the flag absorbs a
`stop()` call made during the tick. -/
def pollRun (strategy : String) (f : FetchOracle) :
    Option IdStore → Bool → List TickInput → List (List TickAction)
  | _, _, [] => []
  | db, flag, t :: rest =>
      if flag then []
      else
        let r := runItems strategy f db t.items
        r.1 :: pollRun strategy f r.2.1 (flag || t.stopDuring) rest

/-- `start(inboxUrl, strategy)`: sets `this.stopPolling = false` and hands the
tick body with the stop callback to `poll` — so the schedule begins with the
flag cleared, whatever it was before. -/
def InboxWatcher.start (w : InboxWatcher) (strategy : String) (f : FetchOracle)
    (ticks : List TickInput) : List (List TickAction) :=
  pollRun strategy f w.db false ticks

/-- Store state reached after one tick's item loop. -/
def finalStore (strategy : String) (f : FetchOracle) (db : Option IdStore)
    (items : List InboxItem) : Option IdStore :=
  (runItems strategy f db items).2.1

/-- Store state threaded through a sequence of ticks (every tick executed). -/
def pollStore (strategy : String) (f : FetchOracle) :
    Option IdStore → List TickInput → Option IdStore
  | db, [] => db
  | db, t :: rest => pollStore strategy f (finalStore strategy f db t.items) rest

/-- The dedup key an item would receive, reading the fetch oracle. -/
def itemKey (strategy : String) (f : FetchOracle) (i : InboxItem) : Option String :=
  dedupKey strategy i.url (parseNotification ((f i.url).toOption.getD []))

/-- The spec's reading of the identifier derivation: the subject of the first
recognized type statement, `none` when there is no such statement. -/
def firstTypeId (stream : List Quad) : Option String :=
  (stream.find? isTypeMatch).map (fun q => q.subject.value)

/-- The derivation the source actually implements: the guard `!id` treats an
empty-string subject as still-unset, so the subject of the first recognized
type statement with a non-empty subject wins; when every recognized type
statement has an empty subject the result is `""`; with no recognized type
statement at all it is `undefined`. -/
def implementedId (stream : List Quad) : Option String :=
  match stream.find? (fun q => isTypeMatch q && !(q.subject.value == "")) with
  | some q => some q.subject.value
  | none => if stream.any isTypeMatch then some "" else none

/-- Checks that a tick trace is a sequence of `emit`-then-`mark` pairs: every
emission is immediately followed by marking its key seen. -/
def pairedTrace : List TickAction → Bool
  | [] => true
  | TickAction.emit _ :: TickAction.mark _ :: rest => pairedTrace rest
  | _ => false

/-- An HTTP request as assembled by `sendNotification`; header names are taken
lowercase-normalized, as the Fetch API stores them. -/
structure HttpRequest where
  url : String
  method : String
  body : String
  headers : List (String × String)
deriving DecidableEq, Repr

/-- The slice of a fetch `Response` that `sendNotification` reads. -/
structure HttpResponse where
  ok : Bool
  headers : List (String × String)
deriving DecidableEq, Repr

/-- `response.headers.get(name)`: the value of the header, `null` when absent. -/
def HttpResponse.getHeader (r : HttpResponse) (name : String) : Option String :=
  (r.headers.find? (fun h => h.1 == name)).map (fun h => h.2)

/-- The result record of `sendNotification`. -/
structure SendResult where
  success : Bool
  location : Option String
deriving DecidableEq, Repr

/-- `sendNotification`: serialize the notification (the JSON-LD serializer is
external, supplied as `serializeFn`; the authenticated fetch obtained from the
external login is `authFetch`), POST the body to `inboxUrl` with the
`content-type: application/ld+json` header, and return `response.ok` together
with `response.headers.get('location')`. -/
def sendNotification (serializeFn : INotification → String)
    (authFetch : HttpRequest → HttpResponse)
    (notification : INotification) (inboxUrl : String) : SendResult :=
  let result := serializeFn notification
  let response := authFetch
    { url := inboxUrl, method := "POST", body := result,
      headers := [("content-type", "application/ld+json")] }
  { success := response.ok, location := response.getHeader "location" }

/-- A recognized `as:Create` type statement with subject `s`. -/
def qCreate (s : String) : Quad :=
  { subject := { value := s },
    predicate := { value := RDF_NS ++ "type" },
    object := { value := AS_NS ++ "Create" } }

/-- Concrete inbox items for witnesses and counterexamples. -/
def itemA : InboxItem := { url := "https://pod.example/inbox/a" }

def itemB : InboxItem := { url := "https://pod.example/inbox/b" }

def itemC : InboxItem := { url := "https://pod.example/inbox/c" }

/-- A fetch oracle on which every resource parses to a single `as:Create`
statement about subject `X`. -/
def fOkX : FetchOracle := fun _ => Except.ok [qCreate "X"]

/-- A fetch oracle on which the second inbox resource fails to fetch and the
others parse to distinct `as:Create` statements. -/
def fFailB : FetchOracle := fun u =>
  if u == itemB.url then Except.error "fetch failed"
  else if u == itemC.url then Except.ok [qCreate "C"]
  else Except.ok [qCreate "A"]

/-- A statement that is not a recognized type statement. -/
def qPlain : Quad :=
  { subject := { value := "S" },
    predicate := { value := "https://example.org/p" },
    object := { value := "o" } }

/-- A fetch oracle on which every resource parses to a stream with no
recognized type statement (derived id `undefined`). -/
def fNoId : FetchOracle := fun _ => Except.ok [qPlain]

theorem parseGo_fst (s : List Quad) : ∀ quads id, (parseGo quads id s).1 = quads ++ s := by
  induction s with
  | nil => intro quads id; simp [parseGo]
  | cons q rest ih =>
      intro quads id
      simp [parseGo, parseStep, ih]

theorem parseGo_snd_truthy (s : List Quad) :
    ∀ quads id, strTruthy id = true → (parseGo quads id s).2 = id := by
  induction s with
  | nil => intro quads id _; simp [parseGo]
  | cons q rest ih =>
      intro quads id h
      simp only [parseGo, parseStep, h, Bool.not_true, Bool.false_and, if_false]
      exact ih _ id h

theorem parseGo_snd (s : List Quad) :
    ∀ quads id, strTruthy id = false →
      (parseGo quads id s).2 =
        match s.find? (fun q => isTypeMatch q && !(q.subject.value == "")) with
        | some q => some q.subject.value
        | none => if s.any isTypeMatch then some "" else id := by
  induction s with
  | nil => intro quads id _; simp [parseGo]
  | cons q rest ih =>
      intro quads id h
      simp only [parseGo, parseStep, h, Bool.not_false, Bool.true_and]
      by_cases hm : isTypeMatch q = true
      · have heq : (if isTypeMatch q then some q.subject.value else id)
            = some q.subject.value := by simp [hm]
        by_cases hs : (q.subject.value == "") = true
        · have hsv : q.subject.value = "" := by simpa using hs
          have h' : strTruthy (some q.subject.value) = false := by
            simp [strTruthy, hsv]
          rw [heq, ih _ _ h']
          cases hf : rest.find? (fun q => isTypeMatch q && !(q.subject.value == "")) with
          | none => simp [List.find?_cons, List.any_cons, hm, hsv, hf]
          | some q' => simp [List.find?_cons, hm, hsv, hf]
        · have hs' : (q.subject.value == "") = false := by
            cases hv : (q.subject.value == "") with
            | false => rfl
            | true => exact absurd hv hs
          have h' : strTruthy (some q.subject.value) = true := by
            simp [strTruthy, hs']
          rw [heq, parseGo_snd_truthy _ _ _ h']
          simp [List.find?_cons, hm, hs']
      · have hm' : isTypeMatch q = false := by
          cases hv : isTypeMatch q with
          | false => rfl
          | true => exact absurd hv hm
        have heq : (if isTypeMatch q then some q.subject.value else id) = id := by
          simp [hm']
        rw [heq, ih _ _ h]
        simp [List.find?_cons, List.any_cons, hm']

theorem parseNotification_quads (stream : List Quad) :
    (parseNotification stream).quads = stream := by
  simp [parseNotification, parseGo_fst]

theorem parseNotification_id (stream : List Quad) :
    (parseNotification stream).id = implementedId stream := by
  have h := parseGo_snd stream [] none (by simp [strTruthy])
  simp only [parseNotification, implementedId, h]

/-- C3, counterexample: on the stream `[(“”, rdf:type, as:Create),
(“S”, rdf:type, as:Create)]` the source derives `id = "S"`, not the subject
`""` of the first recognized type statement as the claim states: the guard
`!id` treats the empty-string subject as still unset. -/
theorem c3_counterexample :
    (parseNotification [qCreate "", qCreate "S"]).id = some "S"
    ∧ firstTypeId [qCreate "", qCreate "S"] = some ""
    ∧ (parseNotification [qCreate "", qCreate "S"]).id
        ≠ firstTypeId [qCreate "", qCreate "S"] := by
  refine ⟨by decide, by decide, by decide⟩

/-- C3 (amended): ingestion always succeeds, returns all input triples in
input order, and derives `id` as the subject of the first recognized type
statement *with a non-empty subject*; when recognized type statements exist
but all have empty subjects the id is `""`, and with none at all it is
`undefined` (`none`). -/
theorem c3_derivation (stream : List Quad) :
    (parseNotification stream).quads = stream
    ∧ (parseNotification stream).id = implementedId stream :=
  ⟨parseNotification_quads stream, parseNotification_id stream⟩

theorem IdStore.get_put_self (db : IdStore) (k : Option String) (v : Bool) :
    (db.put k v).get k = v := by
  simp [IdStore.get, IdStore.put, List.find?_cons]

theorem IdStore.get_put_ne (db : IdStore) {k k' : Option String} (v : Bool)
    (h : ¬ k' = k) : (db.put k v).get k' = db.get k' := by
  have hb : (k == k') = false := by
    simp only [beq_eq_false_iff_ne, ne_eq]
    exact fun hh => h hh.symm
  simp [IdStore.get, IdStore.put, List.find?_cons, hb]

theorem IdStore.get_put_mono (db : IdStore) {k k' : Option String}
    (h : db.get k' = true) : (db.put k true).get k' = true := by
  by_cases he : k' = k
  · subst he; exact db.get_put_self k' true
  · rw [db.get_put_ne true he]; exact h

theorem exists_ok_of_isOk {ε α : Type} {x : Except ε α} (h : x.isOk = true) :
    ∃ b, x = Except.ok b := by
  cases x with
  | ok b => exact ⟨b, rfl⟩
  | error e => simp [Except.isOk, Except.toBool] at h

theorem pollRun_nil (strategy : String) (f : FetchOracle) (db : Option IdStore)
    (flag : Bool) : pollRun strategy f db flag [] = [] := rfl

theorem pollRun_cons (strategy : String) (f : FetchOracle) (db : Option IdStore)
    (flag : Bool) (t : TickInput) (rest : List TickInput) :
    pollRun strategy f db flag (t :: rest)
      = if flag then []
        else (runItems strategy f db t.items).1
             :: pollRun strategy f (runItems strategy f db t.items).2.1
                  (flag || t.stopDuring) rest := rfl

theorem runItems_cons_err (strategy : String) (f : FetchOracle) (db : Option IdStore)
    (item : InboxItem) (rest : List InboxItem) {e : String}
    (hf : f item.url = Except.error e) :
    runItems strategy f db (item :: rest) = ([], db, some e) := by
  simp [runItems, processItem, hf]

theorem runItems_cons_ok (strategy : String) (f : FetchOracle) (store : IdStore)
    (item : InboxItem) (rest : List InboxItem) {quads : List Quad}
    (hf : f item.url = Except.ok quads) :
    runItems strategy f (some store) (item :: rest)
      = if store.get (dedupKey strategy item.url (parseNotification quads)) = true then
          runItems strategy f (some store) rest
        else
          (TickAction.emit (parseNotification quads)
             :: TickAction.mark (dedupKey strategy item.url (parseNotification quads))
             :: (runItems strategy f
                   (some (store.put (dedupKey strategy item.url (parseNotification quads)) true))
                   rest).1,
           (runItems strategy f
               (some (store.put (dedupKey strategy item.url (parseNotification quads)) true))
               rest).2) := by
  by_cases hseen : store.get (dedupKey strategy item.url (parseNotification quads)) = true
  · simp [runItems, processItem, hf, hseen]
  · have hseen' : store.get (dedupKey strategy item.url (parseNotification quads)) = false := by
      cases hv : store.get (dedupKey strategy item.url (parseNotification quads)) with
      | false => rfl
      | true => exact absurd hv hseen
    simp [runItems, processItem, hf, hseen']

theorem runItems_none (strategy : String) (f : FetchOracle) :
    ∀ items : List InboxItem,
      (runItems strategy f none items).1 = []
      ∧ (runItems strategy f none items).2.1 = none := by
  intro items
  induction items with
  | nil => simp [runItems]
  | cons item rest ih =>
      cases hf : f item.url with
      | error e => simp [runItems_cons_err strategy f none item rest hf]
      | ok quads =>
          simp only [runItems, processItem, hf]
          simpa using ih

theorem pollRun_none (strategy : String) (f : FetchOracle) :
    ∀ (ticks : List TickInput) (flag : Bool),
      ∀ tr ∈ pollRun strategy f none flag ticks, tr = [] := by
  intro ticks
  induction ticks with
  | nil => intro flag tr htr; simp [pollRun] at htr
  | cons t rest ih =>
      intro flag tr htr
      by_cases hflag : flag = true
      · subst hflag; simp [pollRun] at htr
      · have hflag' : flag = false := by
          cases hv : flag with
          | false => rfl
          | true => exact absurd hv hflag
        subst hflag'
        rw [pollRun_cons, if_neg (by simp)] at htr
        rcases List.mem_cons.mp htr with h | h
        · rw [h]; exact (runItems_none strategy f t.items).1
        · have hdb : (runItems strategy f none t.items).2.1 = none :=
            (runItems_none strategy f t.items).2
          rw [hdb] at h
          exact ih (false || t.stopDuring) tr h

/-- C1: with caching disabled the source emits nothing at all.  The guard
`if (this.db && !this.db.get(idToCheck))` makes every emission conditional on
the Identity Store being present, so without a store a tick performs no
actions; in particular a watcher created by the public factory, polling an
inbox whose single resource fetches and parses successfully on two
consecutive ticks, emits zero `'notification'` events — where the spec says
every fetched item is treated as new and emitted. -/
theorem c1_no_cache_emits_nothing :
    (∀ (strategy : String) (f : FetchOracle) (items : List InboxItem),
        (runItems strategy f none items).1 = [])
    ∧ InboxWatcher.start (InboxWatcher.create {}) "activity" fOkX
        [{ items := [itemA], stopDuring := false },
         { items := [itemA], stopDuring := false }] = [[], []] := by
  refine ⟨fun strategy f items => (runItems_none strategy f items).1, by decide⟩

/-- C9: the public factory `create` invokes the constructor with no options,
so whatever options `create` is given (any `cachePath` included) the watcher
it returns has no Identity Store, and — the emission guard requiring the
store — every tick of such a watcher emits no `'notification'` event. -/
theorem c9_create_never_caches (opts : CreateOptions) (strategy : String)
    (f : FetchOracle) (ticks : List TickInput) :
    InboxWatcher.create opts = InboxWatcher.construct
    ∧ (InboxWatcher.create opts).db = none
    ∧ (InboxWatcher.start (InboxWatcher.create opts) strategy f ticks).all
        (fun tr => emissionsOf tr == []) = true := by
  refine ⟨rfl, rfl, ?_⟩
  rw [List.all_eq_true]
  intro tr htr
  have h : tr = [] := pollRun_none strategy f ticks false tr htr
  rw [h]
  rfl

theorem runItems_marks (strategy : String) (f : FetchOracle) :
    ∀ (items : List InboxItem) (store : IdStore),
      (∀ i ∈ items, (f i.url).isOk = true) →
      ∃ store', finalStore strategy f (some store) items = some store'
        ∧ (∀ k, store.get k = true → store'.get k = true)
        ∧ (∀ i ∈ items, store'.get (itemKey strategy f i) = true) := by
  intro items
  induction items with
  | nil =>
      intro store _
      exact ⟨store, rfl, fun k h => h, by simp⟩
  | cons item rest ih =>
      intro store hok
      obtain ⟨quads, hf⟩ := exists_ok_of_isOk (hok item (by simp))
      have hkey : itemKey strategy f item
          = dedupKey strategy item.url (parseNotification quads) := by
        simp [itemKey, hf, Except.toOption]
      have hrest : ∀ i ∈ rest, (f i.url).isOk = true :=
        fun i hi => hok i (List.mem_cons_of_mem item hi)
      by_cases hseen :
          store.get (dedupKey strategy item.url (parseNotification quads)) = true
      · obtain ⟨store', hfin, hmono, hmarks⟩ := ih store hrest
        refine ⟨store', ?_, hmono, ?_⟩
        · rw [finalStore, runItems_cons_ok strategy f store item rest hf, if_pos hseen]
          exact hfin
        · intro i hi
          rcases List.mem_cons.mp hi with h | h
          · subst h; rw [hkey]; exact hmono _ hseen
          · exact hmarks i h
      · set k0 := dedupKey strategy item.url (parseNotification quads) with hk0
        obtain ⟨store', hfin, hmono, hmarks⟩ := ih (store.put k0 true) hrest
        refine ⟨store', ?_, ?_, ?_⟩
        · rw [finalStore, runItems_cons_ok strategy f store item rest hf, if_neg hseen]
          exact hfin
        · intro k hk
          exact hmono k (store.get_put_mono hk)
        · intro i hi
          rcases List.mem_cons.mp hi with h | h
          · subst h
            rw [hkey]
            exact hmono k0 (store.get_put_self k0 true)
          · exact hmarks i h

theorem runItems_all_seen (strategy : String) (f : FetchOracle) :
    ∀ (items : List InboxItem) (store : IdStore),
      (∀ i ∈ items, (f i.url).isOk = true) →
      (∀ i ∈ items, store.get (itemKey strategy f i) = true) →
      runItems strategy f (some store) items = ([], some store, none) := by
  intro items
  induction items with
  | nil => intro store _ _; rfl
  | cons item rest ih =>
      intro store hok hseen
      obtain ⟨quads, hf⟩ := exists_ok_of_isOk (hok item (by simp))
      have hkey : itemKey strategy f item
          = dedupKey strategy item.url (parseNotification quads) := by
        simp [itemKey, hf, Except.toOption]
      have hcur : store.get (dedupKey strategy item.url (parseNotification quads)) = true := by
        rw [← hkey]; exact hseen item (by simp)
      rw [runItems_cons_ok strategy f store item rest hf, if_pos hcur]
      exact ih store (fun i hi => hok i (List.mem_cons_of_mem item hi))
        (fun i hi => hseen i (List.mem_cons_of_mem item hi))

/-- C6: with the Identity Store present, marking is idempotent (a second
`put k true` changes nothing observable), a key once marked `true` is never
unmarked by any run of the engine's item loop, and a second consecutive tick
that lists the same resources (every one of which fetches and parses
successfully) emits no `'notification'` event for any key emitted in the
first. -/
theorem c6_store_dedup (strategy : String) (f : FetchOracle) (store db : IdStore)
    (items : List InboxItem) (k : Option String)
    (hok : ∀ i ∈ items, (f i.url).isOk = true) :
    ((store.put k true).put k true).get k = true
    ∧ (∀ k2, ((store.put k true).put k true).get k2 = (store.put k true).get k2)
    ∧ emissionsOf (runItems strategy f (finalStore strategy f (some db) items) items).1 = []
    ∧ (∀ db' k', finalStore strategy f (some db) items = some db' →
          db.get k' = true → db'.get k' = true) := by
  obtain ⟨store', hfin, hmono, hmarks⟩ := runItems_marks strategy f items db hok
  refine ⟨(store.put k true).get_put_self k true, ?_, ?_, ?_⟩
  · intro k2
    by_cases he : k2 = k
    · subst he
      rw [(store.put k2 true).get_put_self k2 true, store.get_put_self k2 true]
    · exact (store.put k true).get_put_ne true he
  · rw [hfin, runItems_all_seen strategy f items store' hok
        (fun i hi => hmarks i hi)]
    rfl
  · intro db' k' hdb' hk'
    rw [hfin] at hdb'
    injection hdb' with hdb'
    subst hdb'
    exact hmono k' hk'

/-- C6 witness: the theorem applied at strategy `"activity"`, the oracle on
which every resource parses to one `as:Create` statement, empty stores, the
one-item listing `[itemA]`, and key `some "X"`. -/
theorem c6_store_dedup_witness :
    ((IdStore.empty.put (some "X") true).put (some "X") true).get (some "X") = true
    ∧ emissionsOf (runItems "activity" fOkX
        (finalStore "activity" fOkX (some IdStore.empty) [itemA]) [itemA]).1 = [] :=
  ⟨(c6_store_dedup "activity" fOkX IdStore.empty IdStore.empty [itemA] (some "X")
      (by decide)).1,
   (c6_store_dedup "activity" fOkX IdStore.empty IdStore.empty [itemA] (some "X")
      (by decide)).2.2.1⟩

theorem processItem_isOk (strategy : String) (f : FetchOracle) (db : Option IdStore)
    (item : InboxItem) {quads : List Quad} (hf : f item.url = Except.ok quads) :
    ∃ acts db', processItem strategy f db item = Except.ok (acts, db') := by
  simp only [processItem, hf]
  cases db with
  | none => exact ⟨[], none, rfl⟩
  | some store =>
      by_cases h : store.get (dedupKey strategy item.url (parseNotification quads)) = true
      · exact ⟨[], some store, by simp [h]⟩
      · have h' : store.get (dedupKey strategy item.url (parseNotification quads)) = false := by
          cases hv : store.get (dedupKey strategy item.url (parseNotification quads)) with
          | false => rfl
          | true => exact absurd hv h
        exact ⟨[TickAction.emit (parseNotification quads),
                 TickAction.mark (dedupKey strategy item.url (parseNotification quads))],
               some (store.put (dedupKey strategy item.url (parseNotification quads)) true),
               by simp [h']⟩

theorem runItems_no_error (strategy : String) (f : FetchOracle) :
    ∀ (items : List InboxItem) (db : Option IdStore),
      (∀ i ∈ items, (f i.url).isOk = true) →
      (runItems strategy f db items).2.2 = none := by
  intro items
  induction items with
  | nil => intro db _; rfl
  | cons item rest ih =>
      intro db hok
      obtain ⟨quads, hf⟩ := exists_ok_of_isOk (hok item (by simp))
      obtain ⟨acts, db', hp⟩ := processItem_isOk strategy f db item hf
      simp only [runItems, hp]
      exact ih db' (fun i hi => hok i (List.mem_cons_of_mem item hi))

theorem runItems_append_ok (strategy : String) (f : FetchOracle) :
    ∀ (pre : List InboxItem) (db : Option IdStore) (post : List InboxItem),
      (runItems strategy f db pre).2.2 = none →
      runItems strategy f db (pre ++ post)
        = ((runItems strategy f db pre).1
             ++ (runItems strategy f (runItems strategy f db pre).2.1 post).1,
           (runItems strategy f (runItems strategy f db pre).2.1 post).2) := by
  intro pre
  induction pre with
  | nil => intro db post _; simp [runItems]
  | cons i pre' ih =>
      intro db post hpre
      cases hp : processItem strategy f db i with
      | error e' =>
          exfalso
          simp only [runItems, hp] at hpre
          exact Option.noConfusion hpre
      | ok res =>
          obtain ⟨acts, db'⟩ := res
          have hpre' : (runItems strategy f db' pre').2.2 = none := by
            simpa only [runItems, hp] using hpre
          have hcons : runItems strategy f db (i :: (pre' ++ post))
              = (acts ++ (runItems strategy f db' (pre' ++ post)).1,
                 (runItems strategy f db' (pre' ++ post)).2) := by
            simp only [runItems, hp]
          have hcons2 : runItems strategy f db (i :: pre')
              = (acts ++ (runItems strategy f db' pre').1,
                 (runItems strategy f db' pre').2) := by
            simp only [runItems, hp]
          rw [List.cons_append, hcons, hcons2, ih db' post hpre']
          simp [List.append_assoc]

/-- C4 (amended): there is no per-item error isolation in the source — when
one item's fetch fails, the exception propagates out of the tick body, so the
items after it in the listing are not processed in that tick; the actions
already performed for the items before it stand. -/
theorem c4_failure_aborts_tick (strategy : String) (f : FetchOracle)
    (pre : List InboxItem) (db : Option IdStore) (item : InboxItem)
    (post : List InboxItem) (e : String)
    (hpre : (runItems strategy f db pre).2.2 = none)
    (hitem : f item.url = Except.error e) :
    runItems strategy f db (pre ++ item :: post)
      = ((runItems strategy f db pre).1, (runItems strategy f db pre).2.1, some e) := by
  induction pre generalizing db with
  | nil =>
      simp only [List.nil_append]
      rw [runItems_cons_err strategy f db item post hitem]
      rfl
  | cons i pre' ih =>
      cases hp : processItem strategy f db i with
      | error e' =>
          exfalso
          simp only [runItems, hp] at hpre
          exact Option.noConfusion hpre
      | ok res =>
          obtain ⟨acts, db'⟩ := res
          have hpre' : (runItems strategy f db' pre').2.2 = none := by
            simpa only [runItems, hp] using hpre
          have hcons : runItems strategy f db (i :: (pre' ++ item :: post))
              = (acts ++ (runItems strategy f db' (pre' ++ item :: post)).1,
                 (runItems strategy f db' (pre' ++ item :: post)).2) := by
            simp only [runItems, hp]
          have hcons2 : runItems strategy f db (i :: pre')
              = (acts ++ (runItems strategy f db' pre').1,
                 (runItems strategy f db' pre').2) := by
            simp only [runItems, hp]
          rw [List.cons_append, hcons, hcons2, ih db' hpre']

/-- C4, counterexample: in a tick listing three resources where the second
fails to fetch, only the first is emitted; the third resource's notification
is not emitted (the claim requires events for the first *and* the third), and
the tick ends with the error. -/
theorem c4_counterexample :
    emissionsOf (runItems "activity" fFailB (some IdStore.empty)
        [itemA, itemB, itemC]).1 = [parseNotification [qCreate "A"]]
    ∧ parseNotification [qCreate "C"]
        ∉ emissionsOf (runItems "activity" fFailB (some IdStore.empty)
            [itemA, itemB, itemC]).1
    ∧ (runItems "activity" fFailB (some IdStore.empty) [itemA, itemB, itemC]).2.2
        = some "fetch failed" := by
  refine ⟨by decide, by decide, by decide⟩

/-- C4 witness: the amended theorem applied at the three-item listing whose
second resource fails to fetch. -/
theorem c4_failure_aborts_tick_witness :
    runItems "activity" fFailB (some IdStore.empty) ([itemA] ++ itemB :: [itemC])
      = ((runItems "activity" fFailB (some IdStore.empty) [itemA]).1,
         (runItems "activity" fFailB (some IdStore.empty) [itemA]).2.1,
         some "fetch failed") :=
  c4_failure_aborts_tick "activity" fFailB [itemA] (some IdStore.empty) itemB [itemC]
    "fetch failed" (by decide) rfl

theorem emissionsOf_nil : emissionsOf [] = [] := rfl

theorem emissionsOf_emit (n : INotification) (l : List TickAction) :
    emissionsOf (TickAction.emit n :: l) = n :: emissionsOf l := rfl

theorem emissionsOf_mark (k : Option String) (l : List TickAction) :
    emissionsOf (TickAction.mark k :: l) = emissionsOf l := rfl

theorem pairedTrace_pair (n : INotification) (k : Option String) (l : List TickAction) :
    pairedTrace (TickAction.emit n :: TickAction.mark k :: l) = pairedTrace l := rfl

theorem runItems_emissions_sublist (strategy : String) (f : FetchOracle) :
    ∀ (items : List InboxItem) (store : IdStore),
      (∀ i ∈ items, (f i.url).isOk = true) →
      (emissionsOf (runItems strategy f (some store) items).1).Sublist
        (items.map (fun i => parseNotification ((f i.url).toOption.getD []))) := by
  intro items
  induction items with
  | nil => intro store _; simp [runItems, emissionsOf]
  | cons item rest ih =>
      intro store hok
      obtain ⟨quads, hf⟩ := exists_ok_of_isOk (hok item (by simp))
      have hrest : ∀ i ∈ rest, (f i.url).isOk = true :=
        fun i hi => hok i (List.mem_cons_of_mem item hi)
      have hmap : (f item.url).toOption.getD [] = quads := by
        simp [hf, Except.toOption]
      rw [runItems_cons_ok strategy f store item rest hf]
      by_cases hseen : store.get (dedupKey strategy item.url (parseNotification quads)) = true
      · rw [if_pos hseen]
        simp only [List.map_cons, hmap]
        exact (ih store hrest).cons _
      · rw [if_neg hseen]
        simp only [List.map_cons, hmap, emissionsOf_emit, emissionsOf_mark]
        exact (ih _ hrest).cons₂ _

theorem runItems_paired (strategy : String) (f : FetchOracle) :
    ∀ (items : List InboxItem) (store : IdStore),
      (∀ i ∈ items, (f i.url).isOk = true) →
      pairedTrace (runItems strategy f (some store) items).1 = true := by
  intro items
  induction items with
  | nil => intro store _; rfl
  | cons item rest ih =>
      intro store hok
      obtain ⟨quads, hf⟩ := exists_ok_of_isOk (hok item (by simp))
      have hrest : ∀ i ∈ rest, (f i.url).isOk = true :=
        fun i hi => hok i (List.mem_cons_of_mem item hi)
      rw [runItems_cons_ok strategy f store item rest hf]
      by_cases hseen : store.get (dedupKey strategy item.url (parseNotification quads)) = true
      · rw [if_pos hseen]
        exact ih store hrest
      · rw [if_neg hseen]
        simp only [pairedTrace_pair]
        exact ih _ hrest

/-- C7: within a tick whose items all fetch and parse successfully, the item
loop is sequential in listing order — the trace of the whole listing is the
trace of any prefix followed by the trace of the remaining items from the
store the prefix reached; the emitted notifications form an order-preserving
sublist of the parses of the listing; and the trace consists of
`emit`-then-`mark` pairs, so for each emitted item the `'notification'` event
comes first and its key is marked seen immediately afterwards. -/
theorem c7_tick_ordering (strategy : String) (f : FetchOracle) (db : IdStore)
    (items pre post : List InboxItem)
    (hok : ∀ i ∈ items, (f i.url).isOk = true)
    (hsplit : items = pre ++ post) :
    (runItems strategy f (some db) items).1
      = (runItems strategy f (some db) pre).1
        ++ (runItems strategy f (finalStore strategy f (some db) pre) post).1
    ∧ (emissionsOf (runItems strategy f (some db) items).1).Sublist
        (items.map (fun i => parseNotification ((f i.url).toOption.getD [])))
    ∧ pairedTrace (runItems strategy f (some db) items).1 = true := by
  subst hsplit
  refine ⟨?_, runItems_emissions_sublist strategy f _ db hok,
    runItems_paired strategy f _ db hok⟩
  have hpre : (runItems strategy f (some db) pre).2.2 = none :=
    runItems_no_error strategy f pre (some db)
      (fun i hi => hok i (List.mem_append_left post hi))
  rw [runItems_append_ok strategy f pre (some db) post hpre]
  rfl

/-- C7 witness: the theorem applied at the two-item listing `[itemA, itemB]`
split after its first item, on the all-successful oracle. -/
theorem c7_tick_ordering_witness :
    (runItems "activity" fOkX (some IdStore.empty) [itemA, itemB]).1
      = (runItems "activity" fOkX (some IdStore.empty) [itemA]).1
        ++ (runItems "activity" fOkX
              (finalStore "activity" fOkX (some IdStore.empty) [itemA]) [itemB]).1
    ∧ (emissionsOf (runItems "activity" fOkX (some IdStore.empty) [itemA, itemB]).1).Sublist
        ([itemA, itemB].map (fun i => parseNotification ((fOkX i.url).toOption.getD [])))
    ∧ pairedTrace (runItems "activity" fOkX (some IdStore.empty) [itemA, itemB]).1 = true :=
  c7_tick_ordering "activity" fOkX IdStore.empty [itemA, itemB] [itemA] [itemB]
    (by decide) rfl

/-- C2: the `strategy` argument of `start` selects the dedup key —
`"activity"` (and in fact any token other than `"notification_id"`) keys on
the notification's derived id, `"notification_id"` keys on the inbox
resource's URL; consequently two distinct fresh resources that parse to the
same derived activity id are both emitted under `"notification_id"`, while
under `"activity"` they collapse to one emission after the first. -/
theorem c2_strategy_switch (f : FetchOracle) (a b : InboxItem) (qa qb : List Quad)
    (store : IdStore)
    (hfa : f a.url = Except.ok qa) (hfb : f b.url = Except.ok qb)
    (hne : a.url ≠ b.url)
    (hsame : (parseNotification qb).id = (parseNotification qa).id)
    (hfresh_a : store.get (some a.url) = false)
    (hfresh_b : store.get (some b.url) = false)
    (hfresh_id : store.get ((parseNotification qa).id) = false) :
    (∀ (url : String) (n : INotification), dedupKey "activity" url n = n.id)
    ∧ (∀ (url : String) (n : INotification), dedupKey "notification_id" url n = some url)
    ∧ emissionsOf (runItems "notification_id" f (some store) [a, b]).1
        = [parseNotification qa, parseNotification qb]
    ∧ emissionsOf (runItems "activity" f (some store) [a, b]).1
        = [parseNotification qa] := by
  have hact : ∀ (url : String) (n : INotification), dedupKey "activity" url n = n.id := by
    intro url n
    simp [dedupKey]
  have hnid : ∀ (url : String) (n : INotification),
      dedupKey "notification_id" url n = some url := by
    intro url n
    simp [dedupKey]
  refine ⟨hact, hnid, ?_, ?_⟩
  · rw [runItems_cons_ok "notification_id" f store a [b] hfa,
      hnid a.url (parseNotification qa),
      if_neg (by rw [hfresh_a]; simp),
      runItems_cons_ok "notification_id" f _ b [] hfb,
      hnid b.url (parseNotification qb)]
    have hgb : (store.put (some a.url) true).get (some b.url) = false := by
      rw [IdStore.get_put_ne store true (fun h => hne (Option.some.inj h).symm), hfresh_b]
    rw [if_neg (by rw [hgb]; simp)]
    rfl
  · rw [runItems_cons_ok "activity" f store a [b] hfa,
      hact a.url (parseNotification qa),
      if_neg (by rw [hfresh_id]; simp),
      runItems_cons_ok "activity" f _ b [] hfb,
      hact b.url (parseNotification qb), hsame,
      if_pos (store.get_put_self ((parseNotification qa).id) true)]
    rfl

/-- C2 witness: the theorem applied at two distinct resources that both parse
to the same `as:Create` statement about `X`, from an empty store. -/
theorem c2_strategy_switch_witness :
    emissionsOf (runItems "notification_id" fOkX (some IdStore.empty) [itemA, itemB]).1
      = [parseNotification [qCreate "X"], parseNotification [qCreate "X"]]
    ∧ emissionsOf (runItems "activity" fOkX (some IdStore.empty) [itemA, itemB]).1
      = [parseNotification [qCreate "X"]] :=
  ⟨(c2_strategy_switch fOkX itemA itemB [qCreate "X"] [qCreate "X"] IdStore.empty
      rfl rfl (by decide) rfl rfl rfl rfl).2.2.1,
   (c2_strategy_switch fOkX itemA itemB [qCreate "X"] [qCreate "X"] IdStore.empty
      rfl rfl (by decide) rfl rfl rfl rfl).2.2.2⟩

/-- C10: under the `"activity"` strategy with the store present, every
notification whose derived id is `undefined` gets the same dedup key
(`undefined`): of two such fresh resources the first is emitted and marks the
`undefined` key, the second is skipped; and once that key is seen, an id-less
notification from any resource whatsoever is skipped silently. -/
theorem c10_undefined_id_collapses (f : FetchOracle) (store : IdStore)
    (a b : InboxItem) (qa qb : List Quad)
    (hfa : f a.url = Except.ok qa) (hfb : f b.url = Except.ok qb)
    (hne : a.url ≠ b.url)
    (ha : (parseNotification qa).id = none) (hb : (parseNotification qb).id = none)
    (hfresh : store.get none = false) :
    dedupKey "activity" a.url (parseNotification qa)
      = dedupKey "activity" b.url (parseNotification qb)
    ∧ (runItems "activity" f (some store) [a, b]).1
        = [TickAction.emit (parseNotification qa), TickAction.mark none]
    ∧ (∀ (c : InboxItem) (qc : List Quad) (store' : IdStore),
        f c.url = Except.ok qc → (parseNotification qc).id = none →
        store'.get none = true →
        (runItems "activity" f (some store') [c]).1 = []) := by
  have hka : dedupKey "activity" a.url (parseNotification qa) = none := by
    simp [dedupKey, ha]
  have hkb : dedupKey "activity" b.url (parseNotification qb) = none := by
    simp [dedupKey, hb]
  refine ⟨by rw [hka, hkb], ?_, ?_⟩
  · rw [runItems_cons_ok "activity" f store a [b] hfa, hka,
      if_neg (by rw [hfresh]; simp),
      runItems_cons_ok "activity" f _ b [] hfb, hkb,
      if_pos (store.get_put_self none true)]
    rfl
  · intro c qc store' hfc hc hseen
    have hkc : dedupKey "activity" c.url (parseNotification qc) = none := by
      simp [dedupKey, hc]
    rw [runItems_cons_ok "activity" f store' c [] hfc, hkc, if_pos hseen]
    rfl

/-- C10 witness: the theorem applied at two distinct resources whose bodies
contain no recognized type statement, from an empty store, and at a third
such resource once the `undefined` key is marked. -/
theorem c10_undefined_id_collapses_witness :
    (runItems "activity" fNoId (some IdStore.empty) [itemA, itemB]).1
      = [TickAction.emit (parseNotification [qPlain]), TickAction.mark none]
    ∧ (runItems "activity" fNoId (some (IdStore.empty.put none true)) [itemC]).1 = [] :=
  ⟨(c10_undefined_id_collapses fNoId IdStore.empty itemA itemB [qPlain] [qPlain]
      rfl rfl (by decide) rfl rfl rfl).2.1,
   (c10_undefined_id_collapses fNoId IdStore.empty itemA itemB [qPlain] [qPlain]
      rfl rfl (by decide) rfl rfl rfl).2.2 itemC [qPlain] (IdStore.empty.put none true)
     rfl rfl rfl⟩

theorem pollRun_flag_stops (strategy : String) (f : FetchOracle) (db : Option IdStore) :
    ∀ ticks : List TickInput, pollRun strategy f db true ticks = [] := by
  intro ticks
  cases ticks with
  | nil => rfl
  | cons t rest => rw [pollRun_cons, if_pos rfl]

theorem pollRun_stops_after (strategy : String) (f : FetchOracle) :
    ∀ (ts : List TickInput) (db : Option IdStore) (t : TickInput) (rest : List TickInput),
      (∀ u ∈ ts, u.stopDuring = false) → t.stopDuring = true →
      pollRun strategy f db false (ts ++ t :: rest)
        = pollRun strategy f db false (ts ++ [t]) := by
  intro ts
  induction ts with
  | nil =>
      intro db t rest _ ht
      simp only [List.nil_append]
      rw [pollRun_cons, pollRun_cons, if_neg (by simp), if_neg (by simp), ht]
      simp only [Bool.false_or]
      rw [pollRun_flag_stops, pollRun_nil]
  | cons u ts' ih =>
      intro db t rest hts ht
      have hu : u.stopDuring = false := hts u (by simp)
      simp only [List.cons_append]
      rw [pollRun_cons, pollRun_cons, if_neg (by simp), if_neg (by simp), hu]
      simp only [Bool.false_or]
      rw [ih _ t rest (fun v hv => hts v (List.mem_cons_of_mem u hv)) ht]

theorem pollRun_last_full (strategy : String) (f : FetchOracle) :
    ∀ (ts : List TickInput) (db : Option IdStore) (t : TickInput),
      (∀ u ∈ ts, u.stopDuring = false) →
      pollRun strategy f db false (ts ++ [t])
        = pollRun strategy f db false ts
            ++ [(runItems strategy f (pollStore strategy f db ts) t.items).1] := by
  intro ts
  induction ts with
  | nil =>
      intro db t _
      rw [List.nil_append, pollRun_cons, if_neg (by simp), pollRun_nil]
      rfl
  | cons u ts' ih =>
      intro db t hts
      have hu : u.stopDuring = false := hts u (by simp)
      simp only [List.cons_append]
      rw [pollRun_cons, pollRun_cons, if_neg (by simp), if_neg (by simp), hu]
      simp only [Bool.false_or]
      rw [ih _ t (fun v hv => hts v (List.mem_cons_of_mem u hv))]
      rfl

theorem pollRun_length_all_run (strategy : String) (f : FetchOracle) :
    ∀ (ts : List TickInput) (db : Option IdStore),
      (∀ u ∈ ts, u.stopDuring = false) →
      (pollRun strategy f db false ts).length = ts.length := by
  intro ts
  induction ts with
  | nil => intro db _; rfl
  | cons u ts' ih =>
      intro db hts
      have hu : u.stopDuring = false := hts u (by simp)
      rw [pollRun_cons, if_neg (by simp), hu]
      simp only [Bool.false_or, List.length_cons]
      rw [ih _ (fun v hv => hts v (List.mem_cons_of_mem u hv))]

/-- C5: when `stop()` is called during a tick, that tick runs to completion —
its full action trace is delivered — and no subsequent tick begins (the ticks
after it in the schedule are dropped, so exactly the ticks up to and
including the stopping one execute); `stop()` just sets the `stopPolling`
flag, and a subsequent `start()` hands the schedule to `poll` with the flag
cleared, whatever it was, so ticking resumes. -/
theorem c5_stop_semantics (strategy : String) (f : FetchOracle) (db : Option IdStore)
    (ts : List TickInput) (t : TickInput) (rest : List TickInput)
    (hts : ∀ u ∈ ts, u.stopDuring = false) (ht : t.stopDuring = true) :
    pollRun strategy f db false (ts ++ t :: rest)
      = pollRun strategy f db false ts
          ++ [(runItems strategy f (pollStore strategy f db ts) t.items).1]
    ∧ (pollRun strategy f db false (ts ++ t :: rest)).length = ts.length + 1
    ∧ (∀ w : InboxWatcher, (InboxWatcher.stop w).stopPolling = true)
    ∧ (∀ (w : InboxWatcher) (ticks : List TickInput),
        InboxWatcher.start w strategy f ticks = pollRun strategy f w.db false ticks) := by
  have h1 := pollRun_stops_after strategy f ts db t rest hts ht
  have h2 := pollRun_last_full strategy f ts db t hts
  refine ⟨h1.trans h2, ?_, fun w => rfl, fun w ticks => rfl⟩
  rw [h1, h2, List.length_append, pollRun_length_all_run strategy f ts db hts]
  rfl

/-- C5 witness: a three-tick schedule whose second tick has `stop()` called
during it — the first two ticks run (the second in full), the third does not —
plus the stop flag set on a concrete watcher. -/
theorem c5_stop_semantics_witness :
    pollRun "activity" fOkX (some IdStore.empty) false
        ([{ items := [itemA], stopDuring := false }]
          ++ { items := [itemA], stopDuring := true }
            :: [{ items := [itemA], stopDuring := false }])
      = pollRun "activity" fOkX (some IdStore.empty) false
            [{ items := [itemA], stopDuring := false }]
          ++ [(runItems "activity" fOkX
                (pollStore "activity" fOkX (some IdStore.empty)
                  [{ items := [itemA], stopDuring := false }])
                [itemA]).1]
    ∧ (InboxWatcher.stop { db := none, stopPolling := false }).stopPolling = true :=
  ⟨(c5_stop_semantics "activity" fOkX (some IdStore.empty)
      [{ items := [itemA], stopDuring := false }]
      { items := [itemA], stopDuring := true }
      [{ items := [itemA], stopDuring := false }] (by decide) rfl).1,
   (c5_stop_semantics "activity" fOkX (some IdStore.empty)
      [{ items := [itemA], stopDuring := false }]
      { items := [itemA], stopDuring := true }
      [{ items := [itemA], stopDuring := false }] (by decide) rfl).2.2.1
     { db := none, stopPolling := false }⟩

/-- C8: `sendNotification` POSTs the serialized notification to the given
inbox URL with the `content-type: application/ld+json` header, and returns
`success = response.ok` and `location = response.headers.get('location')`,
which is `null` exactly when the response has no `location` header. -/
theorem c8_send_contract (serializeFn : INotification → String)
    (authFetch : HttpRequest → HttpResponse) (n : INotification) (inboxUrl : String) :
    sendNotification serializeFn authFetch n inboxUrl
      = { success := (authFetch (HttpRequest.mk inboxUrl "POST" (serializeFn n)
              [("content-type", "application/ld+json")])).ok,
          location := (authFetch (HttpRequest.mk inboxUrl "POST" (serializeFn n)
              [("content-type", "application/ld+json")])).getHeader "location" }
    ∧ (∀ r : HttpResponse,
        r.headers.find? (fun h => h.1 == "location") = none →
        r.getHeader "location" = none) := by
  refine ⟨rfl, ?_⟩
  intro r hr
  simp [HttpResponse.getHeader, hr]

/-- C8 witness: the theorem applied at a constant serializer and a fetch
returning an `ok` response with no headers. -/
theorem c8_send_contract_witness :
    sendNotification (fun _ => "x")
        (fun _ => ({ ok := true, headers := [] } : HttpResponse))
        (parseNotification [qCreate "X"]) "https://pod.example/inbox/"
      = { success := true, location := none }
    ∧ HttpResponse.getHeader { ok := true, headers := [] } "location" = none :=
  ⟨((c8_send_contract (fun _ => "x") (fun _ => { ok := true, headers := [] })
      (parseNotification [qCreate "X"]) "https://pod.example/inbox/").1).trans rfl,
   (c8_send_contract (fun _ => "x") (fun _ => { ok := true, headers := [] })
      (parseNotification [qCreate "X"]) "https://pod.example/inbox/").2
     { ok := true, headers := [] } rfl⟩
